import Mathlib

/-!
Multix: batching contract calls through Multicall3

A shallow embedding of `multicall3.go` (package `multical3`) and the properties
of `Caller.AddByABI` and `Caller.Aggregate`.

Modelling conventions.

* The three external collaborators (the go-ethereum ABI codec, the RPC client and the
  on-chain aggregator behind it) are not part of the repository; they appear as
  arbitrary functions stored in `abi.ABI` and `ethclient.Client`.
* A Go pointer handed to `UnpackIntoInterface` designates a memory cell.  The codec can
  only write through that pointer, so its effect is a function from the current content
  of the cell to the new content, together with the returned `error`.  Output
  destinations registered by the user are addresses into a `Heap`; two registrations
  may name the same address.
* Go's `error` result is `Except Error _` for functions that also return a value, and
  `Option Error` (`none` is Go's `nil`) for functions that only return `error`.
* A slice index out of range is a run-time panic; it is the outcome `Outcome.panic`.
* `AddByABI` and `Aggregate` additionally record the calls they make to the collaborators
  in a list of `Event`s (a ghost log), so that "is invoked once" and "is never invoked"
  can be stated.  Memory is only written through a logged decode call.
-/

set_option autoImplicit false

namespace Multix

/-! ## Data model -/

/-- Byte strings (`[]byte`). -/
abbrev Bytes := List Nat

/-- Go's `error` values (non-nil). -/
abbrev Error := String

/-- Address of a memory cell that an output destination points to. -/
abbrev Ptr := Nat

/-- Go `common.Address`: a 20-byte account identifier. -/
abbrev common.Address := Nat

/-- Go's `*big.Int`; `none` is the nil pointer. -/
abbrev BigInt := Option Int

/-- Go values that flow through `any` in user sub-calls: the ABI arguments and the
contents of output cells. -/
inductive Any where
  | nil
  | bool (b : Bool)
  | uint (n : Nat)
  | str (s : String)
  | bytes (b : Bytes)
  | address (a : common.Address)
deriving DecidableEq, Repr

/-- Memory holding the cells the output destinations point to. -/
abbrev Heap := Ptr → Any

/-- Go `abi.ABI`, reduced to the two methods the program calls.  `Arg` is the type of the
values passed through `...any` to `Pack`, `Cell` the type of the cell behind the pointer
passed to `UnpackIntoInterface`. -/
structure abi.ABI (Arg Cell : Type) where
  /-- Go `Pack(name, args...)`: the encoded call, or an error. -/
  Pack : String → List Arg → Except Error Bytes
  /-- Go `UnpackIntoInterface(v, name, data)`: given the content of the cell `v` points to,
  the content after the call and the returned error. -/
  UnpackIntoInterface : Cell → String → Bytes → Cell × Option Error

/-- Go `ethereum.CallMsg`, with the two fields the program sets. -/
structure ethereum.CallMsg where
  To : Option common.Address
  Data : Bytes
deriving DecidableEq, Repr

/-- Go `ethclient.Client`, reduced to `CallContract(ctx, msg, blockNumber)`. -/
structure ethclient.Client where
  CallContract : ethereum.CallMsg → BigInt → Except Error Bytes

/-- Go `type Call struct`. -/
structure Call where
  Target : common.Address
  CallData : Bytes
deriving DecidableEq, Repr

/-- Go `type AggregateResult struct`. -/
structure AggregateResult where
  BlockNumber : BigInt
  ReturnData : List Bytes
deriving DecidableEq, Repr

/-- Go `type Contract struct`; its ABI is the aggregator's: it packs a call list and unpacks
into an `AggregateResult`. -/
structure Contract where
  Address : common.Address
  ABI : abi.ABI (List Call) AggregateResult
  Client : ethclient.Client

/-- Go `type Multical3 struct` embedding `Contract`. -/
structure Multical3 extends Contract

/-- Go `type FuncPack func(...any) ([]byte, error)`. -/
abbrev FuncPack := List Any → Except Error Bytes

/-- Go `type FuncUnpack func(out interface{}, response []byte) error`, acting on the content
of the cell `out` points to. -/
abbrev FuncUnpack := Any → Bytes → Any × Option Error

/-- Go `type Caller struct`; the field `in` is spelled `in_`. -/
structure Caller where
  multical3 : Multical3
  targets : List common.Address
  funcPack : List FuncPack
  funcUnpack : List FuncUnpack
  in_ : List (List Any)
  out : List Ptr

/-- How a call of `Aggregate` ends. -/
inductive Outcome where
  /-- Go `return nil`. -/
  | success
  /-- Go `return err` with a non-nil error. -/
  | err (e : Error)
  /-- Run-time panic: index out of range. -/
  | panic
deriving DecidableEq, Repr

/-- Calls made by `Aggregate` to its collaborators, in the order they happen. -/
inductive Event where
  /-- Go `c.funcPack[i]` called with these arguments. -/
  | pack (i : Nat) (args : List Any)
  /-- Go `c.multical3.ABI.Pack("aggregate", calls)`. -/
  | packAggregate (calls : List Call)
  /-- Go `c.multical3.Client.CallContract(ctx, msg, blockNumber)`. -/
  | callContract (msg : ethereum.CallMsg) (blockNumber : BigInt)
  /-- Go `c.multical3.ABI.UnpackIntoInterface(&result, "aggregate", response)`. -/
  | unpackAggregate (response : Bytes)
  /-- Go `c.funcUnpack[i]` called with destination `out` and these bytes. -/
  | unpack (i : Nat) (out : Ptr) (response : Bytes)
deriving DecidableEq, Repr

/-- Observable result of running `Aggregate`: the calls made, the memory afterwards and
the way the call ended. -/
structure Run where
  trace : List Event
  heap : Heap
  outcome : Outcome

/-! ## Operations -/

/-- Go `func (m *Multical3) NewCaller() *Caller`. -/
def Multical3.NewCaller (m : Multical3) : Caller :=
  { multical3 := m
    targets := []
    funcPack := []
    funcUnpack := []
    in_ := []
    out := [] }

/-- Observable result of one `AddByABI` call: the `Caller` it returns, the calls it made
to the collaborators (logged as in `Run`) and the way it ended. -/
structure Registered where
  caller : Caller
  trace : List Event
  outcome : Outcome

/-- Go `func (c *Caller) AddByABI(target, abi, f, out, in...) *Caller`.  The receiver is
updated in place and returned; `caller` is that updated `Caller`.  The body only builds the
two closures and appends to the five slices: no call of `abi.Pack`, of
`abi.UnpackIntoInterface` or of the client stands in it, so nothing is logged, and it has
neither an error result nor an index access, so it ends normally. -/
def Caller.AddByABI (c : Caller) (target : common.Address) (abi : abi.ABI Any Any)
    (f : String) (out : Ptr) (in_ : List Any) : Registered :=
  let funcPack : FuncPack := fun args => abi.Pack f args
  let funcUnpack : FuncUnpack := fun out response => abi.UnpackIntoInterface out f response
  { caller :=
      { c with
        targets := c.targets ++ [target]
        funcPack := c.funcPack ++ [funcPack]
        funcUnpack := c.funcUnpack ++ [funcUnpack]
        in_ := c.in_ ++ [in_]
        out := c.out ++ [out] }
    trace := []
    outcome := .success }

/-- The zero value of `Call`, which `make([]Call, n)` fills the slice with. -/
def Call.zero : Call := { Target := 0, CallData := [] }

/-- The zero value of `AggregateResult` (`var result AggregateResult`). -/
def AggregateResult.zero : AggregateResult := { BlockNumber := none, ReturnData := [] }

/-- The first loop of `Aggregate`, `for i, f := range c.funcPack`, from index `i` on, with
`fs` the functions still to visit.  Yields the events of the loop and either the filled
`calls` or the outcome that ended `Aggregate`. -/
def Caller.packLoop (c : Caller) :
    List FuncPack → Nat → List Call → List Event × Except Outcome (List Call)
  | [], _, calls => ([], .ok calls)
  | f :: fs, i, calls =>
    match c.in_[i]? with
    | none => ([], .error .panic)
    | some args =>
      match f args with
      | .error e => ([.pack i args], .error (.err e))
      | .ok callData =>
        match c.targets[i]? with
        | none => ([.pack i args], .error .panic)
        | some target =>
          let r := c.packLoop fs (i + 1) (calls.set i { Target := target, CallData := callData })
          (.pack i args :: r.1, r.2)

/-- The second loop of `Aggregate`, `for i, f := range c.funcUnpack`, from index `i` on. -/
def Caller.unpackLoop (c : Caller) (result : AggregateResult) :
    List FuncUnpack → Nat → Heap → Run
  | [], _, heap => ⟨[], heap, .success⟩
  | f :: fs, i, heap =>
    match c.out[i]? with
    | none => ⟨[], heap, .panic⟩
    | some out =>
      match result.ReturnData[i]? with
      | none => ⟨[], heap, .panic⟩
      | some response =>
        match f (heap out) response with
        | (v, some e) => ⟨[.unpack i out response], Function.update heap out v, .err e⟩
        | (v, none) =>
          let r := c.unpackLoop result fs (i + 1) (Function.update heap out v)
          ⟨.unpack i out response :: r.trace, r.heap, r.outcome⟩

/-- Go `func (c *Caller) Aggregate() error`, run on the memory `heap`. -/
def Caller.Aggregate (c : Caller) (heap : Heap) : Run :=
  let calls := List.replicate c.funcPack.length Call.zero
  match c.packLoop c.funcPack 0 calls with
  | (t1, .error stop) => ⟨t1, heap, stop⟩
  | (t1, .ok calls) =>
    match c.multical3.ABI.Pack "aggregate" [calls] with
    | .error e => ⟨t1 ++ [.packAggregate calls], heap, .err e⟩
    | .ok callData =>
      let msg : ethereum.CallMsg := { To := some c.multical3.Address, Data := callData }
      match c.multical3.Client.CallContract msg none with
      | .error e => ⟨t1 ++ [.packAggregate calls, .callContract msg none], heap, .err e⟩
      | .ok response =>
        match c.multical3.ABI.UnpackIntoInterface AggregateResult.zero "aggregate" response with
        | (_, some e) =>
          ⟨t1 ++ [.packAggregate calls, .callContract msg none, .unpackAggregate response],
            heap, .err e⟩
        | (result, none) =>
          let r := c.unpackLoop result c.funcUnpack 0 heap
          ⟨t1 ++ [.packAggregate calls, .callContract msg none, .unpackAggregate response]
              ++ r.trace, r.heap, r.outcome⟩

/-! ## Registrations -/

/-- The arguments of one `AddByABI` call: a sub-call descriptor as the user supplies it. -/
structure Registration where
  target : common.Address
  abi : abi.ABI Any Any
  f : String
  out : Ptr
  in_ : List Any

/-- What the encode closure of a registration returns on the registered arguments. -/
def Registration.encode (r : Registration) : Except Error Bytes :=
  r.abi.Pack r.f r.in_

/-- What the decode closure of a registration does to a cell holding `cell`. -/
def Registration.decode (r : Registration) (cell : Any) (response : Bytes) :
    Any × Option Error :=
  r.abi.UnpackIntoInterface cell r.f response

/-- The `Caller` after one `AddByABI` call with the arguments of `r`. -/
def Caller.register (c : Caller) (r : Registration) : Caller :=
  (c.AddByABI r.target r.abi r.f r.out r.in_).caller

/-- The `Caller` obtained from `m.NewCaller()` by registering `regs` in order. -/
def build (m : Multical3) (regs : List Registration) : Caller :=
  regs.foldl Caller.register m.NewCaller

/-- The call list `[(target_0, data_0), ...]` in registration order. -/
def callsOf (regs : List Registration) (datas : List Bytes) : List Call :=
  List.zipWith (fun r d => { Target := r.target, CallData := d }) regs datas

/-- The events `pack i args_i` for the registrations `regs`, numbered from `i`. -/
def packEvents : Nat → List Registration → List Event
  | _, [] => []
  | i, r :: rs => .pack i r.in_ :: packEvents (i + 1) rs

/-- The events `unpack i out_i data_i`, numbered from `i`, pairing the registrations with
the byte strings position by position. -/
def unpackEvents : Nat → List Registration → List Bytes → List Event
  | i, r :: rs, b :: bs => .unpack i r.out b :: unpackEvents (i + 1) rs bs
  | _, _, _ => []

/-- Memory after the decode closure of `r` ran on `response`. -/
def decodeStep (heap : Heap) (r : Registration) (response : Bytes) : Heap :=
  Function.update heap r.out (r.decode (heap r.out) response).1

/-- Memory after the decode closures of `regs` ran in order, each on the byte string at
its own position. -/
def heapAfter : List Registration → List Bytes → Heap → Heap
  | r :: rs, b :: bs, heap => heapAfter rs bs (decodeStep heap r b)
  | _, _, heap => heap

/-- The three events between the two loops of a run that reaches the second loop. -/
def middleEvents (m : Multical3) (calls : List Call) (callData response : Bytes) :
    List Event :=
  [.packAggregate calls,
   .callContract { To := some m.Address, Data := callData } none,
   .unpackAggregate response]

/-- Whether the event is a call of the network client. -/
def Event.isCallContract : Event → Bool
  | .callContract _ _ => true
  | _ => false

/-- Whether the event is a call of a decode function, of a sub-call or of the aggregator. -/
def Event.isDecode : Event → Bool
  | .unpack _ _ _ => true
  | .unpackAggregate _ => true
  | _ => false

/-- Whether the event is a call of the encode function of a sub-call. -/
def Event.isPack : Event → Bool
  | .pack _ _ => true
  | _ => false

/-! ## A worked batch

The batch of `example/ex1.go` (`symbol`, `decimals` and `balanceOf` on one token), run
against stand-ins for the codec and the node. -/

/-- The token contract the example batch targets. -/
def usdcAddress : common.Address := 0xA0b86991

/-- The account whose balance the example batch reads. -/
def jakeAddress : common.Address := 0xd166B8Fc

/-- The aggregator contract the example batch is sent to. -/
def multicall3Address : common.Address := 0xcA11bde0

/-- A stand-in for the token interface: `symbol()`, `decimals()` and `balanceOf(address)`.
Packing fails on a wrong argument list; unpacking `decimals` fails on a value that does
not fit in a byte and leaves the cell as it was. -/
def tokenABI : abi.ABI Any Any where
  Pack := fun name args =>
    match name, args with
    | "symbol", [] => .ok [1]
    | "decimals", [] => .ok [2]
    | "balanceOf", [.address a] => .ok [3, a]
    | _, _ => .error "abi: argument count mismatch"
  UnpackIntoInterface := fun cell name data =>
    match name, data with
    | "symbol", _ => (.bytes data, none)
    | "decimals", [n] => if n < 256 then (.uint n, none) else (cell, some "abi: cannot unmarshal")
    | "balanceOf", [n] => (.uint n, none)
    | _, _ => (cell, some "abi: cannot unmarshal")

/-- A stand-in for the aggregator interface: the payload lists target and call data of
each call; each byte of a response is the return data of one call. -/
def aggregatorABI : abi.ABI (List Call) AggregateResult where
  Pack := fun name args =>
    match name, args with
    | "aggregate", [calls] => .ok (calls.flatMap (fun c => c.Target :: c.CallData))
    | _, _ => .error "abi: argument count mismatch"
  UnpackIntoInterface := fun cell name data =>
    match name with
    | "aggregate" => ({ BlockNumber := some 1, ReturnData := data.map (fun x => [x]) }, none)
    | _ => (cell, some "abi: cannot unmarshal")

/-- A node that answers every call with `reply`. -/
def mockClient (reply : Except Error Bytes) : ethclient.Client where
  CallContract := fun _ _ => reply

/-- The aggregator handle of the example, `New(multicall3Address, client)`. -/
def mockMultical3 (reply : Except Error Bytes) : Multical3 where
  Address := multicall3Address
  ABI := aggregatorABI
  Client := mockClient reply

/-- Registration `AddByABI(usdcAddress, abi, "symbol", &symbol)`, with `&symbol` cell 0. -/
def symbolReg : Registration :=
  { target := usdcAddress, abi := tokenABI, f := "symbol", out := 0, in_ := [] }

/-- Registration `AddByABI(usdcAddress, abi, "decimals", &decimals)`, with cell 1. -/
def decimalsReg : Registration :=
  { target := usdcAddress, abi := tokenABI, f := "decimals", out := 1, in_ := [] }

/-- Registration `AddByABI(usdcAddress, abi, "balanceOf", &balance, jakeAddress)`, with
cell 2. -/
def balanceReg : Registration :=
  { target := usdcAddress, abi := tokenABI, f := "balanceOf", out := 2,
    in_ := [.address jakeAddress] }

/-- Registration `AddByABI(usdcAddress, abi, "balanceOf", &symbol, jakeAddress)`: like
`balanceReg`, but with the destination of `symbolReg`, cell 0. -/
def balanceReg0 : Registration :=
  { target := usdcAddress, abi := tokenABI, f := "balanceOf", out := 0,
    in_ := [.address jakeAddress] }

/-- A registration whose encoding fails: `decimals` takes no argument. -/
def badReg : Registration :=
  { target := jakeAddress, abi := tokenABI, f := "decimals", out := 3, in_ := [.uint 7] }

/-- A registration failing like `badReg`, for another target and destination. -/
def badReg2 : Registration :=
  { target := usdcAddress, abi := tokenABI, f := "decimals", out := 4, in_ := [.uint 7] }

/-- The three registrations of `example/ex1.go`, in order. -/
def exampleRegs : List Registration := [symbolReg, decimalsReg, balanceReg]

/-- Memory in which every cell holds the nil value. -/
def emptyHeap : Heap := fun _ => .nil

/-! ## The fields of a built `Caller` -/

theorem foldl_register_fields (regs : List Registration) (c : Caller) :
    (regs.foldl Caller.register c).multical3 = c.multical3 ∧
    (regs.foldl Caller.register c).targets = c.targets ++ regs.map (fun r => r.target) ∧
    (regs.foldl Caller.register c).funcPack
      = c.funcPack ++ regs.map (fun r => (fun args => r.abi.Pack r.f args)) ∧
    (regs.foldl Caller.register c).funcUnpack
      = c.funcUnpack ++ regs.map (fun r => r.decode) ∧
    (regs.foldl Caller.register c).in_ = c.in_ ++ regs.map (fun r => r.in_) ∧
    (regs.foldl Caller.register c).out = c.out ++ regs.map (fun r => r.out) := by
  induction regs generalizing c with
  | nil => simp
  | cons r rs ih =>
    simp only [List.foldl_cons, List.map_cons]
    obtain ⟨h0, h1, h2, h3, h4, h5⟩ := ih (c.register r)
    rw [h0, h1, h2, h3, h4, h5]
    simp [Caller.register, Caller.AddByABI]
    rfl

theorem build_multical3 (m : Multical3) (regs : List Registration) :
    (build m regs).multical3 = m :=
  (foldl_register_fields regs m.NewCaller).1

theorem build_targets (m : Multical3) (regs : List Registration) :
    (build m regs).targets = regs.map (fun r => r.target) := by
  simpa [Multical3.NewCaller] using (foldl_register_fields regs m.NewCaller).2.1

theorem build_funcPack (m : Multical3) (regs : List Registration) :
    (build m regs).funcPack = regs.map (fun r => (fun args => r.abi.Pack r.f args)) := by
  simpa [Multical3.NewCaller] using (foldl_register_fields regs m.NewCaller).2.2.1

theorem build_funcUnpack (m : Multical3) (regs : List Registration) :
    (build m regs).funcUnpack = regs.map (fun r => r.decode) := by
  simpa [Multical3.NewCaller] using (foldl_register_fields regs m.NewCaller).2.2.2.1

theorem build_in (m : Multical3) (regs : List Registration) :
    (build m regs).in_ = regs.map (fun r => r.in_) := by
  simpa [Multical3.NewCaller] using (foldl_register_fields regs m.NewCaller).2.2.2.2.1

theorem build_out (m : Multical3) (regs : List Registration) :
    (build m regs).out = regs.map (fun r => r.out) := by
  simpa [Multical3.NewCaller] using (foldl_register_fields regs m.NewCaller).2.2.2.2.2

/-! ## The encode loop -/

theorem drop_cons_inv {α : Type} (l : List α) (i : Nat) (a : α) (t : List α)
    (h : l.drop i = a :: t) : l[i]? = some a ∧ l.drop (i + 1) = t := by
  constructor
  · have := congrArg List.head? h
    simpa [List.head?_drop] using this
  · have := congrArg List.tail h
    simpa [List.tail_drop] using this

/-- When every remaining sub-call encodes, the loop visits all of them and fills the slots
from `i` on with the calls, leaving the slots before `i` alone. -/
theorem packLoop_ok (c : Caller) (rs : List Registration) :
    ∀ (ds : List Bytes) (i : Nat) (done : List Call),
      c.in_.drop i = rs.map (fun r => r.in_) →
      c.targets.drop i = rs.map (fun r => r.target) →
      rs.map Registration.encode = ds.map Except.ok →
      done.length = i →
      c.packLoop (rs.map (fun r => (fun args => r.abi.Pack r.f args))) i
          (done ++ List.replicate rs.length Call.zero)
        = (packEvents i rs, .ok (done ++ callsOf rs ds)) := by
  induction rs with
  | nil => intro ds i done _ _ _ _; simp [Caller.packLoop, packEvents, callsOf]
  | cons r rs ih =>
    intro ds i done hin htg henc hlen
    cases ds with
    | nil => simp at henc
    | cons d ds =>
      simp only [List.map_cons, List.cons.injEq] at henc hin htg
      obtain ⟨hin0, hin1⟩ := drop_cons_inv _ _ _ _ hin
      obtain ⟨htg0, htg1⟩ := drop_cons_inv _ _ _ _ htg
      have hr : r.abi.Pack r.f r.in_ = .ok d := henc.1
      have hset : (done ++ List.replicate (r :: rs).length Call.zero).set i
            { Target := r.target, CallData := d }
          = (done ++ [{ Target := r.target, CallData := d }])
              ++ List.replicate rs.length Call.zero := by
        subst hlen; simp [List.replicate_succ]
      have := ih ds (i + 1) (done ++ [{ Target := r.target, CallData := d }])
        hin1 htg1 henc.2 (by simp [hlen])
      simp only [List.map_cons, Caller.packLoop, hin0, hr, htg0]
      rw [hset, this]
      simp [packEvents, callsOf]

/-- When the sub-calls `pre` encode and the next one, `r`, fails with `e`, the loop stops
there with `e`, having called the encode functions of `pre` and of `r` only. -/
theorem packLoop_fail (c : Caller) (pre : List Registration) (r : Registration)
    (post : List Registration) (e : Error) (hr : r.encode = .error e) :
    ∀ (ds : List Bytes) (i : Nat) (calls : List Call),
      c.in_.drop i = (pre ++ r :: post).map (fun r => r.in_) →
      c.targets.drop i = (pre ++ r :: post).map (fun r => r.target) →
      pre.map Registration.encode = ds.map Except.ok →
      c.packLoop ((pre ++ r :: post).map (fun r => (fun args => r.abi.Pack r.f args))) i calls
        = (packEvents i (pre ++ [r]), .error (.err e)) := by
  induction pre with
  | nil =>
    intro ds i calls hin _ _
    simp only [List.nil_append, List.map_cons] at hin ⊢
    obtain ⟨hin0, _⟩ := drop_cons_inv _ _ _ _ hin
    have hr0 : r.abi.Pack r.f r.in_ = .error e := hr
    simp [Caller.packLoop, hin0, hr0, packEvents]
  | cons p pre ih =>
    intro ds i calls hin htg henc
    cases ds with
    | nil => simp at henc
    | cons d ds =>
      simp only [List.cons_append, List.map_cons, List.cons.injEq] at henc hin htg ⊢
      obtain ⟨hin0, hin1⟩ := drop_cons_inv _ _ _ _ hin
      obtain ⟨htg0, htg1⟩ := drop_cons_inv _ _ _ _ htg
      have hp : p.abi.Pack p.f p.in_ = .ok d := henc.1
      have := ih ds (i + 1) (calls.set i { Target := p.target, CallData := d })
        hin1 htg1 henc.2
      simp only [Caller.packLoop, hin0, hp, htg0, this, packEvents]

/-! ## The decode loop -/

/-- When every decode function succeeds on the memory it finds, the loop visits all
sub-calls, each on its own destination and its own byte string. -/
theorem unpackLoop_ok (c : Caller) (result : AggregateResult) (rs : List Registration) :
    ∀ (bs : List Bytes) (i : Nat) (heap : Heap),
      c.out.drop i = rs.map (fun r => r.out) →
      result.ReturnData.drop i = bs →
      rs.length ≤ bs.length →
      (∀ (j : Nat) (r : Registration) (b : Bytes), rs[j]? = some r → bs[j]? = some b →
        (r.decode (heapAfter (rs.take j) bs heap r.out) b).2 = none) →
      c.unpackLoop result (rs.map (fun r => r.decode)) i heap
        = ⟨unpackEvents i rs bs, heapAfter rs bs heap, .success⟩ := by
  induction rs with
  | nil => intro bs i heap _ _ _ _; simp [Caller.unpackLoop, unpackEvents, heapAfter]
  | cons r rs ih =>
    intro bs i heap hout hrd hlen hok
    cases bs with
    | nil => simp at hlen
    | cons b bs =>
      simp only [List.map_cons] at hout
      obtain ⟨hout0, hout1⟩ := drop_cons_inv _ _ _ _ hout
      obtain ⟨hrd0, hrd1⟩ := drop_cons_inv _ _ _ _ hrd
      have h0 : (r.decode (heap r.out) b).2 = none := by
        simpa [heapAfter] using hok 0 r b (by simp) (by simp)
      have hrec := ih bs (i + 1) (decodeStep heap r b) hout1 hrd1
        (by simpa using hlen)
        (fun j r' b' hr' hb' => by
          simpa [heapAfter] using hok (j + 1) r' b' (by simpa using hr') (by simpa using hb'))
      have hsplit : r.decode (heap r.out) b = ((r.decode (heap r.out) b).1, none) := by
        rw [← h0]
      simp only [List.map_cons, Caller.unpackLoop, hout0, hrd0]
      rw [hsplit]
      simp only []
      rw [show Function.update heap r.out (r.decode (heap r.out) b).1 = decodeStep heap r b
        from rfl, hrec]
      simp [unpackEvents, heapAfter]

/-- When the decode functions before position `k` succeed and the one at `k` fails with
`e`, the loop stops there with `e`: it has called the decode functions up to `k` only, and
the memory is what those calls left. -/
theorem unpackLoop_fail (c : Caller) (result : AggregateResult) (rs : List Registration) :
    ∀ (bs : List Bytes) (i : Nat) (heap : Heap) (k : Nat) (rk : Registration) (bk : Bytes)
      (e : Error),
      c.out.drop i = rs.map (fun r => r.out) →
      result.ReturnData.drop i = bs →
      rs[k]? = some rk → bs[k]? = some bk →
      (∀ (j : Nat) (r : Registration) (b : Bytes), j < k →
        rs[j]? = some r → bs[j]? = some b →
        (r.decode (heapAfter (rs.take j) bs heap r.out) b).2 = none) →
      (rk.decode (heapAfter (rs.take k) bs heap rk.out) bk).2 = some e →
      c.unpackLoop result (rs.map (fun r => r.decode)) i heap
        = ⟨unpackEvents i (rs.take (k + 1)) bs, heapAfter (rs.take (k + 1)) bs heap,
            .err e⟩ := by
  induction rs with
  | nil => intro bs i heap k rk bk e _ _ hk; simp at hk
  | cons r rs ih =>
    intro bs i heap k rk bk e hout hrd hk hbk hok hfail
    cases bs with
    | nil => simp at hbk
    | cons b bs =>
      simp only [List.map_cons] at hout
      obtain ⟨hout0, hout1⟩ := drop_cons_inv _ _ _ _ hout
      obtain ⟨hrd0, hrd1⟩ := drop_cons_inv _ _ _ _ hrd
      cases k with
      | zero =>
        simp only [List.getElem?_cons_zero, Option.some.injEq] at hk hbk
        subst hk; subst hbk
        have h0 : (r.decode (heap r.out) b).2 = some e := by
          simpa [heapAfter] using hfail
        have hsplit : r.decode (heap r.out) b = ((r.decode (heap r.out) b).1, some e) := by
          rw [← h0]
        simp only [List.map_cons, Caller.unpackLoop, hout0, hrd0]
        rw [hsplit]
        simp [unpackEvents, heapAfter, decodeStep]
      | succ k =>
        have h0 : (r.decode (heap r.out) b).2 = none := by
          simpa [heapAfter] using hok 0 r b (by omega) (by simp) (by simp)
        have hrec := ih bs (i + 1) (decodeStep heap r b) k rk bk e hout1 hrd1
          (by simpa using hk) (by simpa using hbk)
          (fun j r' b' hj hr' hb' => by
            simpa [heapAfter] using
              hok (j + 1) r' b' (by omega) (by simpa using hr') (by simpa using hb'))
          (by simpa [heapAfter] using hfail)
        have hsplit : r.decode (heap r.out) b = ((r.decode (heap r.out) b).1, none) := by
          rw [← h0]
        simp only [List.map_cons, Caller.unpackLoop, hout0, hrd0]
        rw [hsplit]
        simp only []
        rw [show Function.update heap r.out (r.decode (heap r.out) b).1 = decodeStep heap r b
          from rfl, hrec]
        simp [unpackEvents, heapAfter]

/-- The decode loop never calls the network client nor an encode function. -/
theorem unpackLoop_events (c : Caller) (result : AggregateResult) (fs : List FuncUnpack) :
    ∀ (i : Nat) (heap : Heap), ∀ ev ∈ (c.unpackLoop result fs i heap).trace,
      ev.isCallContract = false ∧ ev.isPack = false := by
  induction fs with
  | nil => intro i heap ev hev; simp [Caller.unpackLoop] at hev
  | cons f fs ih =>
    intro i heap ev hev
    simp only [Caller.unpackLoop] at hev
    split at hev
    · simp at hev
    · split at hev
      · simp at hev
      · split at hev
        · simp only [List.mem_singleton] at hev
          subst hev; simp [Event.isCallContract, Event.isPack]
        · simp only [List.mem_cons] at hev
          rcases hev with hev | hev
          · subst hev; simp [Event.isCallContract, Event.isPack]
          · exact ih _ _ ev hev

/-- Whatever the decode functions return, the loop calls them in increasing order from
`i`, each on its own destination and byte string, and goes on exactly as long as they
return no error: either all return no error, all are called and the loop ends normally, or
the first one that returns an error is the last one called and its error ends the loop. -/
theorem unpackLoop_run (c : Caller) (result : AggregateResult) (rs : List Registration) :
    ∀ (bs : List Bytes) (i : Nat) (heap : Heap),
      c.out.drop i = rs.map (fun r => r.out) →
      result.ReturnData.drop i = bs →
      rs.length ≤ bs.length →
      ∃ n, n ≤ rs.length ∧
        (c.unpackLoop result (rs.map (fun r => r.decode)) i heap).trace
          = unpackEvents i (rs.take n) bs ∧
        (c.unpackLoop result (rs.map (fun r => r.decode)) i heap).heap
          = heapAfter (rs.take n) bs heap ∧
        (((c.unpackLoop result (rs.map (fun r => r.decode)) i heap).outcome = .success ∧
            n = rs.length ∧
            ∀ (j : Nat) (r : Registration) (b : Bytes),
              rs[j]? = some r → bs[j]? = some b →
              (r.decode (heapAfter (rs.take j) bs heap r.out) b).2 = none) ∨
          ∃ (k : Nat) (r : Registration) (b : Bytes) (e : Error),
            n = k + 1 ∧ rs[k]? = some r ∧ bs[k]? = some b ∧
            (∀ (j : Nat) (rj : Registration) (bj : Bytes), j < k →
              rs[j]? = some rj → bs[j]? = some bj →
              (rj.decode (heapAfter (rs.take j) bs heap rj.out) bj).2 = none) ∧
            (r.decode (heapAfter (rs.take k) bs heap r.out) b).2 = some e ∧
            (c.unpackLoop result (rs.map (fun r => r.decode)) i heap).outcome = .err e) := by
  induction rs with
  | nil =>
    intro bs i heap _ _ _
    exact ⟨0, by simp, by simp [Caller.unpackLoop, unpackEvents],
      by simp [Caller.unpackLoop, heapAfter], Or.inl (by simp [Caller.unpackLoop])⟩
  | cons r rs ih =>
    intro bs i heap hout hrd hlen
    cases bs with
    | nil => simp at hlen
    | cons b bs =>
      simp only [List.map_cons] at hout
      obtain ⟨hout0, hout1⟩ := drop_cons_inv _ _ _ _ hout
      obtain ⟨hrd0, hrd1⟩ := drop_cons_inv _ _ _ _ hrd
      cases h2 : (r.decode (heap r.out) b).2 with
      | some e =>
        have hsplit : r.decode (heap r.out) b = ((r.decode (heap r.out) b).1, some e) := by
          rw [← h2]
        refine ⟨1, by simp, ?_, ?_,
          Or.inr ⟨0, r, b, e, rfl, by simp, by simp, ?_, ?_, ?_⟩⟩
        · simp only [List.map_cons, Caller.unpackLoop, hout0, hrd0]
          rw [hsplit]
          simp [unpackEvents]
        · simp only [List.map_cons, Caller.unpackLoop, hout0, hrd0]
          rw [hsplit]
          simp [heapAfter, decodeStep]
        · intro j rj bj hj; omega
        · simpa [heapAfter] using h2
        · simp only [List.map_cons, Caller.unpackLoop, hout0, hrd0]
          rw [hsplit]
      | none =>
        have hsplit : r.decode (heap r.out) b = ((r.decode (heap r.out) b).1, none) := by
          rw [← h2]
        have hstep : c.unpackLoop result ((r :: rs).map (fun r => r.decode)) i heap
            = ⟨.unpack i r.out b ::
                (c.unpackLoop result (rs.map (fun r => r.decode)) (i + 1)
                  (decodeStep heap r b)).trace,
               (c.unpackLoop result (rs.map (fun r => r.decode)) (i + 1)
                  (decodeStep heap r b)).heap,
               (c.unpackLoop result (rs.map (fun r => r.decode)) (i + 1)
                  (decodeStep heap r b)).outcome⟩ := by
          simp only [List.map_cons, Caller.unpackLoop, hout0, hrd0]
          rw [hsplit]
          rfl
        have hhead : ∀ (j : Nat) (rj : Registration) (bj : Bytes),
            (∀ (j0 : Nat), j = j0 + 1 → rs[j0]? = some rj → bs[j0]? = some bj →
              (rj.decode (heapAfter (rs.take j0) bs (decodeStep heap r b) rj.out) bj).2
                = none) →
            (r :: rs)[j]? = some rj → (b :: bs)[j]? = some bj →
            (rj.decode (heapAfter ((r :: rs).take j) (b :: bs) heap rj.out) bj).2
              = none := by
          intro j rj bj htail hrj hbj
          cases j with
          | zero =>
            simp only [List.getElem?_cons_zero, Option.some.injEq] at hrj hbj
            subst hrj; subst hbj
            simpa [heapAfter] using h2
          | succ j0 =>
            simpa [heapAfter] using
              htail j0 rfl (by simpa using hrj) (by simpa using hbj)
        obtain ⟨n, hn, htr, hhp, hout⟩ := ih bs (i + 1) (decodeStep heap r b) hout1 hrd1
          (by simpa using hlen)
        rw [hstep]
        refine ⟨n + 1, by simpa using hn, by simp [htr, unpackEvents],
          by simp [hhp, heapAfter], ?_⟩
        rcases hout with ⟨hs, hN, hall⟩ | ⟨k, rk, bk, e, hk, hrk, hbk, hbefore, hf, he⟩
        · refine Or.inl ⟨hs, by simp [hN], ?_⟩
          intro j rj bj hrj hbj
          exact hhead j rj bj (fun j0 hj0 h1 h3 => hall j0 rj bj h1 h3) hrj hbj
        · refine Or.inr ⟨k + 1, rk, bk, e, by omega, by simpa using hrk,
            by simpa using hbk, ?_, by simpa [heapAfter] using hf, he⟩
          intro j rj bj hj hrj hbj
          exact hhead j rj bj
            (fun j0 hj0 h1 h3 => hbefore j0 rj bj (by omega) h1 h3) hrj hbj

/-- A cell that is the destination of none of the registrations is left alone. -/
theorem heapAfter_frame (rs : List Registration) (p : Ptr) :
    ∀ (bs : List Bytes) (heap : Heap), (∀ r ∈ rs, r.out ≠ p) →
      heapAfter rs bs heap p = heap p := by
  induction rs with
  | nil => intro bs heap _; simp [heapAfter]
  | cons r rs ih =>
    intro bs heap h
    cases bs with
    | nil => simp [heapAfter]
    | cons b bs =>
      have hr : p ≠ r.out := fun hp => h r (by simp) hp.symm
      simp only [heapAfter]
      rw [ih bs _ (fun r' hr' => h r' (by simp [hr'])), decodeStep,
        Function.update_noteq hr]

/-- Position `j` of `unpackEvents i regs bs` pairs registration `j` with byte string `j`. -/
theorem unpackEvents_getElem? (rs : List Registration) :
    ∀ (bs : List Bytes) (i j : Nat) (r : Registration) (b : Bytes),
      rs[j]? = some r → bs[j]? = some b →
      (unpackEvents i rs bs)[j]? = some (.unpack (i + j) r.out b) := by
  induction rs with
  | nil => intro bs i j r b h; simp at h
  | cons r0 rs ih =>
    intro bs i j r b hr hb
    cases bs with
    | nil => simp at hb
    | cons b0 bs =>
      cases j with
      | zero =>
        simp only [List.getElem?_cons_zero, Option.some.injEq] at hr hb
        simp [unpackEvents, hr, hb]
      | succ j =>
        have := ih bs (i + 1) j r b (by simpa using hr) (by simpa using hb)
        simp only [unpackEvents, List.getElem?_cons_succ, this]
        congr 2
        omega

/-- Every event of `unpackEvents` carries an index below `i + regs.length`. -/
theorem unpackEvents_index (rs : List Registration) :
    ∀ (bs : List Bytes) (i j : Nat) (p : Ptr) (b : Bytes),
      Event.unpack j p b ∈ unpackEvents i rs bs → i ≤ j ∧ j < i + rs.length := by
  induction rs with
  | nil => intro bs i j p b h; simp [unpackEvents] at h
  | cons r0 rs ih =>
    intro bs i j p b h
    cases bs with
    | nil => simp [unpackEvents] at h
    | cons b0 bs =>
      simp only [unpackEvents, List.mem_cons, Event.unpack.injEq] at h
      rcases h with ⟨hj, _, _⟩ | h
      · subst hj; simp
      · have := ih bs (i + 1) j p b h
        simp only [List.length_cons]
        omega

/-- The list `unpackEvents i rs bs` has one event per position that both lists have. -/
theorem unpackEvents_length (rs : List Registration) :
    ∀ (bs : List Bytes) (i : Nat),
      (unpackEvents i rs bs).length = min rs.length bs.length := by
  induction rs with
  | nil => intro bs i; simp [unpackEvents]
  | cons r rs ih =>
    intro bs i
    cases bs with
    | nil => simp [unpackEvents]
    | cons b bs =>
      simp only [unpackEvents, List.length_cons, ih bs (i + 1)]
      omega

/-- Every event of `unpackEvents i rs bs` is the one of its own position: index `j` comes
with the destination of registration `j - i` and with byte string `j - i`. -/
theorem unpackEvents_mem (rs : List Registration) :
    ∀ (bs : List Bytes) (i j : Nat) (p : Ptr) (b : Bytes),
      Event.unpack j p b ∈ unpackEvents i rs bs →
      j - i < rs.length ∧ ∃ r : Registration,
        rs[j - i]? = some r ∧ p = r.out ∧ bs[j - i]? = some b := by
  induction rs with
  | nil => intro bs i j p b h; simp [unpackEvents] at h
  | cons r0 rs ih =>
    intro bs i j p b h
    cases bs with
    | nil => simp [unpackEvents] at h
    | cons b0 bs =>
      have hidx := unpackEvents_index (r0 :: rs) (b0 :: bs) i j p b h
      simp only [unpackEvents, List.mem_cons, Event.unpack.injEq] at h
      rcases h with ⟨hj, hp, hb⟩ | h
      · subst hj
        exact ⟨by simp, r0, by simp, hp, by simp [hb]⟩
      · have hidx2 := unpackEvents_index rs bs (i + 1) j p b h
        obtain ⟨hlt, r, hr, hp, hb⟩ := ih bs (i + 1) j p b h
        have hji : j - i = (j - (i + 1)) + 1 := by omega
        refine ⟨by simp only [List.length_cons]; omega, r, ?_, hp, ?_⟩
        · rw [hji]; simpa using hr
        · rw [hji]; simpa using hb

theorem packEvents_flags (rs : List Registration) :
    ∀ (i : Nat), ∀ ev ∈ packEvents i rs,
      ev.isCallContract = false ∧ ev.isDecode = false ∧ ev.isPack = true := by
  induction rs with
  | nil => intro i ev h; simp [packEvents] at h
  | cons r rs ih =>
    intro i ev h
    simp only [packEvents, List.mem_cons] at h
    rcases h with h | h
    · subst h; simp [Event.isCallContract, Event.isDecode, Event.isPack]
    · exact ih _ ev h

theorem unpackEvents_flags (rs : List Registration) :
    ∀ (bs : List Bytes) (i : Nat), ∀ ev ∈ unpackEvents i rs bs,
      ev.isCallContract = false ∧ ev.isPack = false := by
  induction rs with
  | nil => intro bs i ev h; simp [unpackEvents] at h
  | cons r rs ih =>
    intro bs i ev h
    cases bs with
    | nil => simp [unpackEvents] at h
    | cons b bs =>
      simp only [unpackEvents, List.mem_cons] at h
      rcases h with h | h
      · subst h; simp [Event.isCallContract, Event.isPack]
      · exact ih _ _ ev h

/-! ## Runs of `Aggregate` on a built `Caller` -/

/-- The encode loop of a built `Caller` whose sub-calls all encode. -/
theorem build_packLoop_ok (m : Multical3) (regs : List Registration) (ds : List Bytes)
    (henc : regs.map Registration.encode = ds.map Except.ok) :
    (build m regs).packLoop (build m regs).funcPack 0
        (List.replicate (build m regs).funcPack.length Call.zero)
      = (packEvents 0 regs, .ok (callsOf regs ds)) := by
  have h := packLoop_ok (build m regs) regs ds 0 []
    (by simp [build_in]) (by simp [build_targets]) henc rfl
  rw [build_funcPack]
  simpa using h

/-- The encode loop of a built `Caller` whose sub-call `k` is the first that fails. -/
theorem build_packLoop_fail (m : Multical3) (regs : List Registration) (k : Nat)
    (r : Registration) (e : Error) (ds : List Bytes)
    (hk : regs[k]? = some r)
    (hpre : (regs.take k).map Registration.encode = ds.map Except.ok)
    (hr : r.encode = .error e) :
    (build m regs).packLoop (build m regs).funcPack 0
        (List.replicate (build m regs).funcPack.length Call.zero)
      = (packEvents 0 (regs.take (k + 1)), .error (.err e)) := by
  have hlt : k < regs.length := by
    rcases Nat.lt_or_ge k regs.length with h | h
    · exact h
    · rw [List.getElem?_eq_none h] at hk; cases hk
  have hrk : regs[k] = r := by
    rw [List.getElem?_eq_getElem hlt] at hk; exact Option.some.inj hk
  have hsplit : regs = regs.take k ++ r :: regs.drop (k + 1) := by
    rw [← hrk, ← List.drop_eq_getElem_cons hlt, List.take_append_drop]
  have htake : regs.take (k + 1) = regs.take k ++ [r] := by
    rw [List.take_succ, hk]; rfl
  have h := packLoop_fail (build m regs) (regs.take k) r (regs.drop (k + 1)) e hr ds 0
    (List.replicate (build m regs).funcPack.length Call.zero)
    (by rw [← hsplit]; simp [build_in]) (by rw [← hsplit]; simp [build_targets]) hpre
  rw [← hsplit] at h
  rw [build_funcPack, htake]
  rw [build_funcPack] at h
  exact h

/-- A run on a built `Caller` that gets past the aggregator's decode continues with the
decode loop. -/
theorem build_Aggregate_reach (m : Multical3) (regs : List Registration) (ds : List Bytes)
    (callData response : Bytes) (result : AggregateResult) (heap : Heap)
    (henc : regs.map Registration.encode = ds.map Except.ok)
    (hagg : m.ABI.Pack "aggregate" [callsOf regs ds] = .ok callData)
    (hcall : m.Client.CallContract { To := some m.Address, Data := callData } none
      = .ok response)
    (hunpack : m.ABI.UnpackIntoInterface AggregateResult.zero "aggregate" response
      = (result, none)) :
    (build m regs).Aggregate heap
      = ⟨packEvents 0 regs ++ middleEvents m (callsOf regs ds) callData response
            ++ ((build m regs).unpackLoop result (regs.map (fun r => r.decode)) 0 heap).trace,
          ((build m regs).unpackLoop result (regs.map (fun r => r.decode)) 0 heap).heap,
          ((build m regs).unpackLoop result (regs.map (fun r => r.decode)) 0 heap).outcome⟩ := by
  unfold Caller.Aggregate
  simp only [build_packLoop_ok m regs ds henc, build_multical3, hagg, hcall, hunpack,
    build_funcUnpack, middleEvents]

/-- A run on a built `Caller` in which nothing fails: every decode function is called, on
its own destination and byte string, the memory is what these calls left and nil is
returned. -/
theorem build_Aggregate_ok (m : Multical3) (regs : List Registration) (ds : List Bytes)
    (callData response : Bytes) (result : AggregateResult) (heap : Heap)
    (henc : regs.map Registration.encode = ds.map Except.ok)
    (hagg : m.ABI.Pack "aggregate" [callsOf regs ds] = .ok callData)
    (hcall : m.Client.CallContract { To := some m.Address, Data := callData } none
      = .ok response)
    (hunpack : m.ABI.UnpackIntoInterface AggregateResult.zero "aggregate" response
      = (result, none))
    (hlen : regs.length ≤ result.ReturnData.length)
    (hok : ∀ (j : Nat) (r : Registration) (b : Bytes),
      regs[j]? = some r → result.ReturnData[j]? = some b →
      (r.decode (heapAfter (regs.take j) result.ReturnData heap r.out) b).2 = none) :
    (build m regs).Aggregate heap
      = ⟨packEvents 0 regs ++ middleEvents m (callsOf regs ds) callData response
            ++ unpackEvents 0 regs result.ReturnData,
          heapAfter regs result.ReturnData heap, .success⟩ := by
  rw [build_Aggregate_reach m regs ds callData response result heap henc hagg hcall hunpack,
    unpackLoop_ok (build m regs) result regs result.ReturnData 0 heap
      (by simp [build_out]) (by simp) hlen hok]

/-- The encode loop of a built `Caller` never indexes `c.in` or `c.targets` out of range. -/
theorem packLoop_no_panic (c : Caller) (rs : List Registration) :
    ∀ (i : Nat) (calls : List Call),
      c.in_.drop i = rs.map (fun r => r.in_) →
      c.targets.drop i = rs.map (fun r => r.target) →
      (c.packLoop (rs.map (fun r => (fun args => r.abi.Pack r.f args))) i calls).2
        ≠ .error .panic := by
  induction rs with
  | nil => intro i calls _ _; simp [Caller.packLoop]
  | cons r rs ih =>
    intro i calls hin htg
    simp only [List.map_cons] at hin htg
    obtain ⟨hin0, hin1⟩ := drop_cons_inv _ _ _ _ hin
    obtain ⟨htg0, htg1⟩ := drop_cons_inv _ _ _ _ htg
    simp only [List.map_cons, Caller.packLoop, hin0, htg0]
    cases hp : r.abi.Pack r.f r.in_ with
    | error e => simp
    | ok d => exact ih (i + 1) _ hin1 htg1

/-- What a run on a built `Caller` whose sub-calls and aggregate call encode does up to
the network call: the encode functions in order, the aggregate encode, one network call;
afterwards it calls neither the network client nor an encode function. -/
theorem build_Aggregate_upto_call (m : Multical3) (regs : List Registration)
    (ds : List Bytes) (callData : Bytes) (heap : Heap)
    (henc : regs.map Registration.encode = ds.map Except.ok)
    (hagg : m.ABI.Pack "aggregate" [callsOf regs ds] = .ok callData) :
    ∃ rest : List Event,
      ((build m regs).Aggregate heap).trace
        = packEvents 0 regs
          ++ [.packAggregate (callsOf regs ds),
              .callContract { To := some m.Address, Data := callData } none]
          ++ rest ∧
      ∀ ev ∈ rest, ev.isCallContract = false ∧ ev.isPack = false := by
  unfold Caller.Aggregate
  simp only [build_packLoop_ok m regs ds henc, build_multical3, hagg]
  cases hcall : m.Client.CallContract { To := some m.Address, Data := callData } none with
  | error e => exact ⟨[], by simp, by simp⟩
  | ok response =>
    cases hun : m.ABI.UnpackIntoInterface AggregateResult.zero "aggregate" response with
    | mk result err =>
      cases err with
      | some e =>
        refine ⟨[.unpackAggregate response], by simp [hun], ?_⟩
        intro ev hev
        simp only [List.mem_singleton] at hev
        subst hev; simp [Event.isCallContract, Event.isPack]
      | none =>
        refine ⟨.unpackAggregate response
          :: ((build m regs).unpackLoop result (build m regs).funcUnpack 0 heap).trace,
          by simp [hun], ?_⟩
        intro ev hev
        simp only [List.mem_cons] at hev
        rcases hev with hev | hev
        · subst hev; simp [Event.isCallContract, Event.isPack]
        · exact unpackLoop_events _ _ _ _ _ ev hev

/-- A cell that is the destination of exactly one of the registrations holds what the
decode function of that registration made of its previous content. -/
theorem heapAfter_at (rs : List Registration) :
    ∀ (bs : List Bytes) (heap : Heap) (i : Nat) (r : Registration) (b : Bytes),
      rs[i]? = some r → bs[i]? = some b →
      (∀ (j : Nat) (rj : Registration), j ≠ i → rs[j]? = some rj → rj.out ≠ r.out) →
      heapAfter rs bs heap r.out = (r.decode (heap r.out) b).1 := by
  induction rs with
  | nil => intro bs heap i r b h; simp at h
  | cons r0 rs ih =>
    intro bs heap i r b hr hb hne
    cases bs with
    | nil => simp at hb
    | cons b0 bs =>
      cases i with
      | zero =>
        simp only [List.getElem?_cons_zero, Option.some.injEq] at hr hb
        subst hr; subst hb
        simp only [heapAfter]
        rw [heapAfter_frame rs r0.out bs _ (fun r' hr' => by
          obtain ⟨j, hj⟩ := List.mem_iff_getElem?.mp hr'
          exact hne (j + 1) r' (by omega) (by simpa using hj))]
        simp [decodeStep]
      | succ i =>
        have h0 : r0.out ≠ r.out := hne 0 r0 (by omega) (by simp)
        simp only [heapAfter]
        rw [ih bs (decodeStep heap r0 b0) i r b (by simpa using hr) (by simpa using hb)
          (fun j rj hj hrj => hne (j + 1) rj (by omega) (by simpa using hrj))]
        simp [decodeStep, Function.update_noteq (Ne.symm h0)]

/-! ## The claims -/

/-- C9: for every `Caller` and every (target, interface descriptor, function name, output
destination, arguments), `AddByABI` ends normally (it neither returns an error nor panics)
and calls no collaborator: its log holds no encode call, no decode call and no network
call.  The `Caller` it returns has the aggregator handle unchanged and each of the five
sequences extended at the end by exactly the new entry (the target, the arguments, the
destination, and closures that defer to `abi.Pack` and `abi.UnpackIntoInterface` for `f`);
every earlier entry stays at its index. -/
theorem AddByABI_appends (c : Caller) (target : common.Address) (abi : abi.ABI Any Any)
    (f : String) (out : Ptr) (in_ : List Any) :
    (c.AddByABI target abi f out in_).outcome = .success ∧
    (c.AddByABI target abi f out in_).trace = [] ∧
    (∀ ev ∈ (c.AddByABI target abi f out in_).trace,
      ev.isPack = false ∧ ev.isDecode = false ∧ ev.isCallContract = false) ∧
    (c.AddByABI target abi f out in_).caller.multical3 = c.multical3 ∧
    (c.AddByABI target abi f out in_).caller.targets = c.targets ++ [target] ∧
    (c.AddByABI target abi f out in_).caller.in_ = c.in_ ++ [in_] ∧
    (c.AddByABI target abi f out in_).caller.out = c.out ++ [out] ∧
    (c.AddByABI target abi f out in_).caller.funcPack
      = c.funcPack ++ [fun args => abi.Pack f args] ∧
    (c.AddByABI target abi f out in_).caller.funcUnpack
      = c.funcUnpack ++ [fun cell response => abi.UnpackIntoInterface cell f response] ∧
    (∀ i, i < c.targets.length →
      (c.AddByABI target abi f out in_).caller.targets[i]? = c.targets[i]?) ∧
    (∀ i, i < c.in_.length →
      (c.AddByABI target abi f out in_).caller.in_[i]? = c.in_[i]?) ∧
    (∀ i, i < c.out.length →
      (c.AddByABI target abi f out in_).caller.out[i]? = c.out[i]?) ∧
    (∀ i, i < c.funcPack.length →
      (c.AddByABI target abi f out in_).caller.funcPack[i]? = c.funcPack[i]?) ∧
    (∀ i, i < c.funcUnpack.length →
      (c.AddByABI target abi f out in_).caller.funcUnpack[i]? = c.funcUnpack[i]?) := by
  refine ⟨rfl, rfl, ?_, rfl, rfl, rfl, rfl, rfl, rfl, ?_, ?_, ?_, ?_, ?_⟩
  · intro ev hev
    simp [Caller.AddByABI] at hev
  all_goals
    intro i hi
    simp [Caller.AddByABI, List.getElem?_append_left hi]

/-- C10: a `Caller` built from `NewCaller` by any sequence of `AddByABI` calls has its
five sequences of the same length (the number of registrations), so every index the two
loops of `Aggregate` range over is in bounds for `c.in`, `c.targets` and `c.out`; the
encode loop never panics, and the decode loop does not panic when `ReturnData` has at least
as many entries as there are sub-calls. -/
theorem build_parallel_lengths (m : Multical3) (regs : List Registration) :
    (build m regs).targets.length = regs.length ∧
    (build m regs).funcPack.length = regs.length ∧
    (build m regs).funcUnpack.length = regs.length ∧
    (build m regs).in_.length = regs.length ∧
    (build m regs).out.length = regs.length ∧
    (∀ i, i < (build m regs).funcPack.length →
      i < (build m regs).in_.length ∧ i < (build m regs).targets.length) ∧
    (∀ i, i < (build m regs).funcUnpack.length → i < (build m regs).out.length) ∧
    (∀ calls, ((build m regs).packLoop (build m regs).funcPack 0 calls).2
      ≠ .error .panic) ∧
    (∀ (result : AggregateResult) (heap : Heap),
      (build m regs).funcUnpack.length ≤ result.ReturnData.length →
      ((build m regs).unpackLoop result (build m regs).funcUnpack 0 heap).outcome
        ≠ .panic) := by
  refine ⟨by simp [build_targets], by simp [build_funcPack], by simp [build_funcUnpack],
    by simp [build_in], by simp [build_out], ?_, ?_, ?_, ?_⟩
  · intro i hi
    simpa [build_funcPack, build_in, build_targets] using hi
  · intro i hi
    simpa [build_funcUnpack, build_out] using hi
  · intro calls
    rw [build_funcPack]
    exact packLoop_no_panic _ regs 0 calls (by simp [build_in]) (by simp [build_targets])
  · intro result heap hlen
    rw [build_funcUnpack] at hlen ⊢
    obtain ⟨n, _, _, _, h⟩ := unpackLoop_run (build m regs) result regs result.ReturnData 0
      heap (by simp [build_out]) (by simp) (by simpa using hlen)
    rcases h with ⟨hs, _⟩ | ⟨_, _, _, e, _, _, _, _, _, he⟩
    · rw [hs]; simp
    · rw [he]; simp

/-- C6: on a `Caller` fresh from `NewCaller`, when the aggregator encodes the empty call
list, the node answers and the answer decodes, `Aggregate` makes exactly those three calls
(encode of the empty list, one network call with that payload, decode of the answer), calls
no encode or decode function of a sub-call, leaves the memory as it was and returns nil. -/
theorem Aggregate_empty (m : Multical3) (callData response : Bytes)
    (result : AggregateResult) (heap : Heap)
    (hagg : m.ABI.Pack "aggregate" [[]] = .ok callData)
    (hcall : m.Client.CallContract { To := some m.Address, Data := callData } none
      = .ok response)
    (hunpack : m.ABI.UnpackIntoInterface AggregateResult.zero "aggregate" response
      = (result, none)) :
    (m.NewCaller.Aggregate heap).trace
      = [.packAggregate [], .callContract { To := some m.Address, Data := callData } none,
          .unpackAggregate response] ∧
    (m.NewCaller.Aggregate heap).heap = heap ∧
    (m.NewCaller.Aggregate heap).outcome = .success := by
  simp [Caller.Aggregate, Multical3.NewCaller, Caller.packLoop, Caller.unpackLoop, hagg,
    hcall, hunpack]

theorem Aggregate_empty_witness :
    ((mockMultical3 (.ok [])).NewCaller.Aggregate emptyHeap).trace
      = [.packAggregate [],
          .callContract { To := some (mockMultical3 (.ok [])).Address, Data := [] } none,
          .unpackAggregate []] ∧
    ((mockMultical3 (.ok [])).NewCaller.Aggregate emptyHeap).heap = emptyHeap ∧
    ((mockMultical3 (.ok [])).NewCaller.Aggregate emptyHeap).outcome = .success :=
  Aggregate_empty (mockMultical3 (.ok [])) [] [] { BlockNumber := some 1, ReturnData := [] }
    emptyHeap rfl rfl rfl

/-- C7: on a built `Caller` whose sub-calls all encode (to `ds`) and whose aggregate call
encodes to `callData`, `Aggregate` calls the network client exactly once, after the encode
functions in registration order and the aggregate encode of
`[(target_0, ds_0), ..., (target_{N-1}, ds_{N-1})]`; the call is addressed to the
aggregator, carries `callData` and has no block number. -/
theorem Aggregate_single_network_call (m : Multical3) (regs : List Registration)
    (ds : List Bytes) (callData : Bytes) (heap : Heap)
    (henc : regs.map Registration.encode = ds.map Except.ok)
    (hagg : m.ABI.Pack "aggregate" [callsOf regs ds] = .ok callData) :
    ((build m regs).Aggregate heap).trace.filter Event.isCallContract
      = [.callContract { To := some m.Address, Data := callData } none] ∧
    (∃ rest : List Event,
      ((build m regs).Aggregate heap).trace
        = packEvents 0 regs
          ++ [.packAggregate (callsOf regs ds),
              .callContract { To := some m.Address, Data := callData } none]
          ++ rest) ∧
    callsOf regs ds
      = List.zipWith (fun r d => { Target := r.target, CallData := d }) regs ds := by
  obtain ⟨rest, htr, hrest⟩ := build_Aggregate_upto_call m regs ds callData heap henc hagg
  refine ⟨?_, ⟨rest, htr⟩, rfl⟩
  have h1 : (packEvents 0 regs).filter Event.isCallContract = [] := by
    rw [List.filter_eq_nil_iff]
    intro ev hev
    simp [(packEvents_flags regs 0 ev hev).1]
  have h2 : rest.filter Event.isCallContract = [] := by
    rw [List.filter_eq_nil_iff]
    intro ev hev
    simp [(hrest ev hev).1]
  rw [htr]
  simp [List.filter_append, h1, h2, List.filter_cons, Event.isCallContract]

theorem Aggregate_single_network_call_witness :
    ((build (mockMultical3 (.ok [85, 6, 100])) exampleRegs).Aggregate emptyHeap).trace.filter
        Event.isCallContract
      = [.callContract
          { To := some multicall3Address,
            Data := [usdcAddress, 1, usdcAddress, 2, usdcAddress, 3, jakeAddress] } none] :=
  (Aggregate_single_network_call (mockMultical3 (.ok [85, 6, 100])) exampleRegs
    [[1], [2], [3, jakeAddress]]
    [usdcAddress, 1, usdcAddress, 2, usdcAddress, 3, jakeAddress] emptyHeap rfl rfl).1

/-- C3: on a built `Caller` whose sub-calls and aggregate call encode, when the network
client returns the error `e`, `Aggregate` returns `e` itself, has called no decode function
(neither the aggregator's nor a sub-call's) and leaves the memory, hence every output
destination, as it was. -/
theorem Aggregate_network_error (m : Multical3) (regs : List Registration)
    (ds : List Bytes) (callData : Bytes) (e : Error) (heap : Heap)
    (henc : regs.map Registration.encode = ds.map Except.ok)
    (hagg : m.ABI.Pack "aggregate" [callsOf regs ds] = .ok callData)
    (hcall : m.Client.CallContract { To := some m.Address, Data := callData } none
      = .error e) :
    ((build m regs).Aggregate heap).outcome = .err e ∧
    ((build m regs).Aggregate heap).heap = heap ∧
    ((build m regs).Aggregate heap).trace
      = packEvents 0 regs
        ++ [.packAggregate (callsOf regs ds),
            .callContract { To := some m.Address, Data := callData } none] ∧
    ∀ ev ∈ ((build m regs).Aggregate heap).trace, ev.isDecode = false := by
  have hrun : (build m regs).Aggregate heap
      = ⟨packEvents 0 regs
          ++ [.packAggregate (callsOf regs ds),
              .callContract { To := some m.Address, Data := callData } none],
         heap, .err e⟩ := by
    unfold Caller.Aggregate
    simp only [build_packLoop_ok m regs ds henc, build_multical3, hagg, hcall]
  rw [hrun]
  refine ⟨rfl, rfl, rfl, ?_⟩
  intro ev hev
  simp only [List.mem_append, List.mem_cons, List.mem_singleton, List.not_mem_nil,
    or_false] at hev
  rcases hev with hev | hev | hev
  · exact (packEvents_flags regs 0 ev hev).2.1
  · subst hev; rfl
  · subst hev; rfl

theorem Aggregate_network_error_witness :
    ((build (mockMultical3 (.error "dial tcp: timeout")) exampleRegs).Aggregate
        emptyHeap).outcome = .err "dial tcp: timeout" ∧
    ((build (mockMultical3 (.error "dial tcp: timeout")) exampleRegs).Aggregate
        emptyHeap).heap = emptyHeap :=
  let h := Aggregate_network_error (mockMultical3 (.error "dial tcp: timeout")) exampleRegs
    [[1], [2], [3, jakeAddress]]
    [usdcAddress, 1, usdcAddress, 2, usdcAddress, 3, jakeAddress] "dial tcp: timeout"
    emptyHeap rfl rfl rfl
  ⟨h.1, h.2.1⟩

/-- C2: on a built `Caller`, when the sub-calls before index `k` encode and the encode
function of sub-call `k` fails with `e`, `Aggregate` returns an error (`e`), has called
only the encode functions of sub-calls `0..k` (so neither the network client nor any decode
function) and leaves the memory, hence every output destination, as it was. -/
theorem Aggregate_encode_failure (m : Multical3) (regs : List Registration) (k : Nat)
    (r : Registration) (e : Error) (ds : List Bytes) (heap : Heap)
    (hk : regs[k]? = some r)
    (hpre : (regs.take k).map Registration.encode = ds.map Except.ok)
    (hr : r.encode = .error e) :
    ((build m regs).Aggregate heap).outcome = .err e ∧
    ((build m regs).Aggregate heap).heap = heap ∧
    ((build m regs).Aggregate heap).trace = packEvents 0 (regs.take (k + 1)) ∧
    ∀ ev ∈ ((build m regs).Aggregate heap).trace,
      ev.isCallContract = false ∧ ev.isDecode = false := by
  have hrun : (build m regs).Aggregate heap
      = ⟨packEvents 0 (regs.take (k + 1)), heap, .err e⟩ := by
    unfold Caller.Aggregate
    simp only [build_packLoop_fail m regs k r e ds hk hpre hr]
  rw [hrun]
  refine ⟨rfl, rfl, rfl, ?_⟩
  intro ev hev
  exact ⟨(packEvents_flags _ 0 ev hev).1, (packEvents_flags _ 0 ev hev).2.1⟩

theorem Aggregate_encode_failure_witness :
    ((build (mockMultical3 (.ok [85, 6, 100])) [symbolReg, badReg, balanceReg]).Aggregate
        emptyHeap).outcome = .err "abi: argument count mismatch" ∧
    ((build (mockMultical3 (.ok [85, 6, 100])) [symbolReg, badReg, balanceReg]).Aggregate
        emptyHeap).trace = [.pack 0 [], .pack 1 [.uint 7]] :=
  let h := Aggregate_encode_failure (mockMultical3 (.ok [85, 6, 100]))
    [symbolReg, badReg, balanceReg] 1 badReg "abi: argument count mismatch" [[1]] emptyHeap
    rfl rfl rfl
  ⟨h.1, h.2.2.1⟩

/-- C8 (as the code has it): when sub-call `k` is the first whose encode function fails,
`Aggregate` returns exactly the error value that encode function returned, with nothing
added: two batches whose failing encode functions return the same error `e` return the same
error, whatever the failing indices and targets are. -/
theorem Aggregate_encode_error_verbatim (m1 m2 : Multical3)
    (regs1 regs2 : List Registration) (k1 k2 : Nat) (r1 r2 : Registration) (e : Error)
    (ds1 ds2 : List Bytes) (heap1 heap2 : Heap)
    (hk1 : regs1[k1]? = some r1)
    (hpre1 : (regs1.take k1).map Registration.encode = ds1.map Except.ok)
    (hr1 : r1.encode = .error e)
    (hk2 : regs2[k2]? = some r2)
    (hpre2 : (regs2.take k2).map Registration.encode = ds2.map Except.ok)
    (hr2 : r2.encode = .error e) :
    ((build m1 regs1).Aggregate heap1).outcome = .err e ∧
    ((build m2 regs2).Aggregate heap2).outcome = ((build m1 regs1).Aggregate heap1).outcome := by
  have h1 : ((build m1 regs1).Aggregate heap1).outcome = .err e := by
    unfold Caller.Aggregate
    simp only [build_packLoop_fail m1 regs1 k1 r1 e ds1 hk1 hpre1 hr1]
  have h2 : ((build m2 regs2).Aggregate heap2).outcome = .err e := by
    unfold Caller.Aggregate
    simp only [build_packLoop_fail m2 regs2 k2 r2 e ds2 hk2 hpre2 hr2]
  exact ⟨h1, h2.trans h1.symm⟩

theorem Aggregate_encode_error_verbatim_witness :
    ((build (mockMultical3 (.ok [])) [badReg]).Aggregate emptyHeap).outcome
      = .err "abi: argument count mismatch" ∧
    ((build (mockMultical3 (.ok [])) [symbolReg, badReg2]).Aggregate emptyHeap).outcome
      = ((build (mockMultical3 (.ok [])) [badReg]).Aggregate emptyHeap).outcome :=
  Aggregate_encode_error_verbatim (mockMultical3 (.ok [])) (mockMultical3 (.ok []))
    [badReg] [symbolReg, badReg2] 0 1 badReg badReg2 "abi: argument count mismatch"
    [] [[1]] emptyHeap emptyHeap rfl rfl rfl rfl rfl rfl

/-- C8, refuted as stated: a batch failing at index 0 (target `jakeAddress`) and a batch
failing at index 1 (target `usdcAddress`) return the same error, so no function of the
returned error yields the failing index. -/
theorem Aggregate_encode_error_index_lost :
    ¬ ∃ recover : Outcome → Nat,
      recover ((build (mockMultical3 (.ok [])) [badReg]).Aggregate emptyHeap).outcome = 0 ∧
      recover ((build (mockMultical3 (.ok [])) [symbolReg, badReg2]).Aggregate
        emptyHeap).outcome = 1 := by
  rintro ⟨recover, h0, h1⟩
  have ha : ((build (mockMultical3 (.ok [])) [badReg]).Aggregate emptyHeap).outcome
      = .err "abi: argument count mismatch" := by decide
  have hb : ((build (mockMultical3 (.ok [])) [symbolReg, badReg2]).Aggregate
      emptyHeap).outcome = .err "abi: argument count mismatch" := by decide
  rw [ha] at h0
  rw [hb] at h1
  omega

/-- C1 (as the code has it): on a built `Caller` whose sub-calls and aggregate call encode,
whose network call succeeds and whose response decodes to an `AggregateResult` with exactly
`N` return byte strings, `Aggregate` calls the decode functions in increasing index order
from 0, the `i`-th on exactly (the `i`-th destination, `ReturnData[i]`), and goes on to the
next index only when the call returned no error.  It makes the first `n` of these calls and
no other decode call of a sub-call: either every one of the `N` calls returned no error,
`n = N` and nil is returned; or `n = k + 1`, the calls `0..k-1` returned no error, call `k`
returned an error, that error is returned and no call after `k` is made.  No decode
function sees the bytes or the destination of another position. -/
theorem Aggregate_decode_order (m : Multical3) (regs : List Registration) (ds : List Bytes)
    (callData response : Bytes) (result : AggregateResult) (heap : Heap)
    (henc : regs.map Registration.encode = ds.map Except.ok)
    (hagg : m.ABI.Pack "aggregate" [callsOf regs ds] = .ok callData)
    (hcall : m.Client.CallContract { To := some m.Address, Data := callData } none
      = .ok response)
    (hunpack : m.ABI.UnpackIntoInterface AggregateResult.zero "aggregate" response
      = (result, none))
    (hlen : result.ReturnData.length = regs.length) :
    ∃ n, n ≤ regs.length ∧
      ((build m regs).Aggregate heap).trace
        = packEvents 0 regs ++ middleEvents m (callsOf regs ds) callData response
          ++ unpackEvents 0 (regs.take n) result.ReturnData ∧
      ((build m regs).Aggregate heap).heap = heapAfter (regs.take n) result.ReturnData heap ∧
      (∀ (i : Nat) (r : Registration) (b : Bytes), i < n →
        regs[i]? = some r → result.ReturnData[i]? = some b →
        (unpackEvents 0 (regs.take n) result.ReturnData)[i]? = some (.unpack i r.out b)) ∧
      (unpackEvents 0 (regs.take n) result.ReturnData).length = n ∧
      (∀ (j : Nat) (p : Ptr) (b : Bytes),
        Event.unpack j p b ∈ ((build m regs).Aggregate heap).trace →
        j < n ∧ ∃ r : Registration,
          regs[j]? = some r ∧ p = r.out ∧ result.ReturnData[j]? = some b) ∧
      ((((build m regs).Aggregate heap).outcome = .success ∧ n = regs.length ∧
          ∀ (j : Nat) (r : Registration) (b : Bytes),
            regs[j]? = some r → result.ReturnData[j]? = some b →
            (r.decode (heapAfter (regs.take j) result.ReturnData heap r.out) b).2 = none) ∨
        ∃ (k : Nat) (r : Registration) (b : Bytes) (e : Error),
          n = k + 1 ∧ regs[k]? = some r ∧ result.ReturnData[k]? = some b ∧
          (∀ (j : Nat) (rj : Registration) (bj : Bytes), j < k →
            regs[j]? = some rj → result.ReturnData[j]? = some bj →
            (rj.decode (heapAfter (regs.take j) result.ReturnData heap rj.out) bj).2
              = none) ∧
          (r.decode (heapAfter (regs.take k) result.ReturnData heap r.out) b).2 = some e ∧
          ((build m regs).Aggregate heap).outcome = .err e) := by
  rw [build_Aggregate_reach m regs ds callData response result heap henc hagg hcall hunpack]
  obtain ⟨n, hn, htr, hhp, hout⟩ := unpackLoop_run (build m regs) result regs
    result.ReturnData 0 heap (by simp [build_out]) (by simp) (by omega)
  refine ⟨n, hn, by simp only [htr], hhp, ?_, ?_, ?_, hout⟩
  · intro i r b hi hr hb
    have := unpackEvents_getElem? (regs.take n) result.ReturnData 0 i r b
      (by rw [List.getElem?_take_of_lt hi]; exact hr) hb
    simpa using this
  · rw [unpackEvents_length]
    simp only [List.length_take]
    omega
  · intro j p b hmem
    simp only [htr, List.mem_append] at hmem
    rcases hmem with (hmem | hmem) | hmem
    · have := (packEvents_flags regs 0 _ hmem).2.1
      simp [Event.isDecode] at this
    · simp [middleEvents] at hmem
    · obtain ⟨hjn, r, hr, hp, hb⟩ := unpackEvents_mem _ _ _ _ _ _ hmem
      have hj : j < n := by
        simp only [List.length_take] at hjn
        omega
      rw [Nat.sub_zero] at hr hb
      rw [List.getElem?_take_of_lt hj] at hr
      exact ⟨hj, r, hr, hp, hb⟩

theorem Aggregate_decode_order_witness :
    ∃ n, n ≤ exampleRegs.length ∧
      ((build (mockMultical3 (.ok [85, 6, 100])) exampleRegs).Aggregate emptyHeap).trace
        = packEvents 0 exampleRegs
          ++ middleEvents (mockMultical3 (.ok [85, 6, 100]))
              (callsOf exampleRegs [[1], [2], [3, jakeAddress]])
              [usdcAddress, 1, usdcAddress, 2, usdcAddress, 3, jakeAddress] [85, 6, 100]
          ++ unpackEvents 0 (exampleRegs.take n) [[85], [6], [100]] :=
  let ⟨n, hn, htr, _⟩ := Aggregate_decode_order (mockMultical3 (.ok [85, 6, 100])) exampleRegs
    [[1], [2], [3, jakeAddress]]
    [usdcAddress, 1, usdcAddress, 2, usdcAddress, 3, jakeAddress] [85, 6, 100]
    { BlockNumber := some 1, ReturnData := [[85], [6], [100]] } emptyHeap
    rfl rfl rfl rfl rfl
  ⟨n, hn, htr⟩

/-- C1, refuted as stated: the example batch of three sub-calls meets every premise of the
claim (all sub-calls and the aggregate call encode, the network call succeeds, the response
decodes to three return byte strings), the decode function of sub-call 1 fails, and the
decode function of sub-call 2 is not called on (its destination, `ReturnData[2]`). -/
theorem Aggregate_decode_stops_at_failure :
    exampleRegs.map Registration.encode = [[1], [2], [3, jakeAddress]].map Except.ok ∧
    (mockMultical3 (.ok [85, 300, 100])).ABI.Pack "aggregate"
        [callsOf exampleRegs [[1], [2], [3, jakeAddress]]]
      = .ok [usdcAddress, 1, usdcAddress, 2, usdcAddress, 3, jakeAddress] ∧
    (mockMultical3 (.ok [85, 300, 100])).Client.CallContract
        { To := some (mockMultical3 (.ok [85, 300, 100])).Address,
          Data := [usdcAddress, 1, usdcAddress, 2, usdcAddress, 3, jakeAddress] } none
      = .ok [85, 300, 100] ∧
    (mockMultical3 (.ok [85, 300, 100])).ABI.UnpackIntoInterface AggregateResult.zero
        "aggregate" [85, 300, 100]
      = ({ BlockNumber := some 1, ReturnData := [[85], [300], [100]] }, none) ∧
    [[85], [300], [100]].length = exampleRegs.length ∧
    Event.unpack 2 balanceReg.out [100]
      ∉ ((build (mockMultical3 (.ok [85, 300, 100])) exampleRegs).Aggregate emptyHeap).trace ∧
    ((build (mockMultical3 (.ok [85, 300, 100])) exampleRegs).Aggregate emptyHeap).trace.filter
        Event.isDecode
      = [.unpackAggregate [85, 300, 100], .unpack 0 0 [85], .unpack 1 1 [300]] :=
  ⟨rfl, rfl, rfl, rfl, rfl, by decide, by decide⟩

/-- C5 (as the code has it): on a built `Caller` with `N` sub-calls, when encoding, the
network call and the decode of the response succeed (with a return byte string at every
position up to `k`, as when there are `N` of them), the decode functions of sub-calls
`0..k-1` return no error and the one of sub-call `k` returns `e`, then `Aggregate` returns
an error (`e`); the memory is what the decode functions of sub-calls `0..k` left, so a
destination written by one earlier sub-call only holds what that decode function made of
it; no decode function of a sub-call after `k` is called, and every cell that is not also
a destination of one of the sub-calls `0..k`, among them the destinations of the sub-calls
after `k` that they share with none of `0..k`, is as it was. -/
theorem Aggregate_decode_failure (m : Multical3) (regs : List Registration)
    (ds : List Bytes) (callData response : Bytes) (result : AggregateResult) (heap : Heap)
    (k : Nat) (rk : Registration) (bk : Bytes) (e : Error)
    (henc : regs.map Registration.encode = ds.map Except.ok)
    (hagg : m.ABI.Pack "aggregate" [callsOf regs ds] = .ok callData)
    (hcall : m.Client.CallContract { To := some m.Address, Data := callData } none
      = .ok response)
    (hunpack : m.ABI.UnpackIntoInterface AggregateResult.zero "aggregate" response
      = (result, none))
    (hk : regs[k]? = some rk) (hbk : result.ReturnData[k]? = some bk)
    (hok : ∀ (j : Nat) (r : Registration) (b : Bytes), j < k →
      regs[j]? = some r → result.ReturnData[j]? = some b →
      (r.decode (heapAfter (regs.take j) result.ReturnData heap r.out) b).2 = none)
    (hfail : (rk.decode (heapAfter (regs.take k) result.ReturnData heap rk.out) bk).2
      = some e) :
    ((build m regs).Aggregate heap).outcome = .err e ∧
    ((build m regs).Aggregate heap).trace
      = packEvents 0 regs ++ middleEvents m (callsOf regs ds) callData response
        ++ unpackEvents 0 (regs.take (k + 1)) result.ReturnData ∧
    ((build m regs).Aggregate heap).heap
      = heapAfter (regs.take (k + 1)) result.ReturnData heap ∧
    (∀ (i : Nat) (ri : Registration) (bi : Bytes), i < k →
      regs[i]? = some ri → result.ReturnData[i]? = some bi →
      (∀ (j : Nat) (rj : Registration), j ≤ k → j ≠ i → regs[j]? = some rj →
        rj.out ≠ ri.out) →
      ((build m regs).Aggregate heap).heap ri.out = (ri.decode (heap ri.out) bi).1) ∧
    (∀ (j : Nat) (p : Ptr) (b : Bytes), k < j →
      Event.unpack j p b ∉ ((build m regs).Aggregate heap).trace) ∧
    (∀ p : Ptr,
      (∀ (i : Nat) (ri : Registration), i ≤ k → regs[i]? = some ri → ri.out ≠ p) →
      ((build m regs).Aggregate heap).heap p = heap p) := by
  rw [build_Aggregate_reach m regs ds callData response result heap henc hagg hcall hunpack]
  have hrun := unpackLoop_fail (build m regs) result regs result.ReturnData 0 heap k rk bk e
    (by simp [build_out]) (by simp) hk hbk hok hfail
  rw [hrun]
  have htake : ∀ (j : Nat) (rj : Registration),
      (regs.take (k + 1))[j]? = some rj → j ≤ k ∧ regs[j]? = some rj := by
    intro j rj hj
    rcases Nat.lt_or_ge j (k + 1) with hlt | hge
    · rw [List.getElem?_take_of_lt hlt] at hj
      exact ⟨by omega, hj⟩
    · rw [List.getElem?_eq_none (by simp; omega)] at hj
      cases hj
  refine ⟨rfl, rfl, rfl, ?_, ?_, ?_⟩
  · intro i ri bi hi hri hbi hne
    exact heapAfter_at (regs.take (k + 1)) result.ReturnData heap i ri bi
      (by rw [List.getElem?_take_of_lt (by omega)]; exact hri) hbi
      (fun j rj hj hrj => hne j rj (htake j rj hrj).1 hj (htake j rj hrj).2)
  · intro j p b hj hmem
    simp only [List.mem_append] at hmem
    rcases hmem with (hmem | hmem) | hmem
    · have := (packEvents_flags regs 0 _ hmem).2.1
      simp [Event.isDecode] at this
    · simp [middleEvents] at hmem
    · have := unpackEvents_index _ _ _ _ _ _ hmem
      simp only [List.length_take] at this
      omega
  · intro p hp
    exact heapAfter_frame (regs.take (k + 1)) p result.ReturnData heap (fun r hr => by
      obtain ⟨j, hj⟩ := List.mem_iff_getElem?.mp hr
      exact hp j r (htake j r hj).1 (htake j r hj).2)

theorem Aggregate_decode_failure_witness :
    ((build (mockMultical3 (.ok [85, 300, 100])) exampleRegs).Aggregate emptyHeap).outcome
      = .err "abi: cannot unmarshal" ∧
    ((build (mockMultical3 (.ok [85, 300, 100])) exampleRegs).Aggregate emptyHeap).heap 0
      = .bytes [85] ∧
    ((build (mockMultical3 (.ok [85, 300, 100])) exampleRegs).Aggregate emptyHeap).heap 2
      = .nil :=
  let h := Aggregate_decode_failure (mockMultical3 (.ok [85, 300, 100])) exampleRegs
    [[1], [2], [3, jakeAddress]]
    [usdcAddress, 1, usdcAddress, 2, usdcAddress, 3, jakeAddress] [85, 300, 100]
    { BlockNumber := some 1, ReturnData := [[85], [300], [100]] } emptyHeap
    1 decimalsReg [300] "abi: cannot unmarshal"
    rfl rfl rfl rfl rfl rfl
    (fun j r b hj hr hb => by
      have hj0 : j = 0 := by omega
      subst hj0
      simp only [exampleRegs, List.getElem?_cons_zero, Option.some.injEq] at hr hb
      subst hr; subst hb
      rfl)
    rfl
  ⟨h.1,
   (h.2.2.2.1 0 symbolReg [85] (by decide) rfl rfl (fun j rj hj hne hrj => by
      have hj1 : j = 1 := by omega
      subst hj1
      simp only [exampleRegs, List.getElem?_cons_succ, List.getElem?_cons_zero,
        Option.some.injEq] at hrj
      subst hrj
      decide)),
   (h.2.2.2.2.2 2 (fun i ri hi hri => by
      rcases Nat.lt_or_ge i 1 with h0 | h1
      · have hi0 : i = 0 := by omega
        subst hi0
        simp only [exampleRegs, List.getElem?_cons_zero, Option.some.injEq] at hri
        subst hri
        decide
      · have hi1 : i = 1 := by omega
        subst hi1
        simp only [exampleRegs, List.getElem?_cons_succ, List.getElem?_cons_zero,
          Option.some.injEq] at hri
        subst hri
        decide))⟩

/-- C5, refuted as stated: in the batch `symbol`, `decimals`, `balanceOf` in which the
third sub-call has the destination of the first (cell 0), every premise of the claim holds
with `k = 1` (all encode, the network call succeeds, the response decodes to three return
byte strings, decode 0 returns no error and decode 1 returns one), the decode function of
sub-call 2 is not called, and yet the destination of sub-call 2 is not what it was: it
holds what the decode function of sub-call 0 wrote. -/
theorem Aggregate_decode_failure_shared_destination :
    [symbolReg, decimalsReg, balanceReg0].map Registration.encode
      = [[1], [2], [3, jakeAddress]].map Except.ok ∧
    (mockMultical3 (.ok [85, 300, 100])).ABI.Pack "aggregate"
        [callsOf [symbolReg, decimalsReg, balanceReg0] [[1], [2], [3, jakeAddress]]]
      = .ok [usdcAddress, 1, usdcAddress, 2, usdcAddress, 3, jakeAddress] ∧
    (mockMultical3 (.ok [85, 300, 100])).Client.CallContract
        { To := some (mockMultical3 (.ok [85, 300, 100])).Address,
          Data := [usdcAddress, 1, usdcAddress, 2, usdcAddress, 3, jakeAddress] } none
      = .ok [85, 300, 100] ∧
    (mockMultical3 (.ok [85, 300, 100])).ABI.UnpackIntoInterface AggregateResult.zero
        "aggregate" [85, 300, 100]
      = ({ BlockNumber := some 1, ReturnData := [[85], [300], [100]] }, none) ∧
    [[85], [300], [100]].length = [symbolReg, decimalsReg, balanceReg0].length ∧
    (symbolReg.decode (emptyHeap symbolReg.out) [85]).2 = none ∧
    (decimalsReg.decode (decodeStep emptyHeap symbolReg [85] decimalsReg.out) [300]).2
      = some "abi: cannot unmarshal" ∧
    ((build (mockMultical3 (.ok [85, 300, 100]))
        [symbolReg, decimalsReg, balanceReg0]).Aggregate emptyHeap).outcome
      = .err "abi: cannot unmarshal" ∧
    ((build (mockMultical3 (.ok [85, 300, 100]))
        [symbolReg, decimalsReg, balanceReg0]).Aggregate emptyHeap).trace.filter
        Event.isDecode
      = [.unpackAggregate [85, 300, 100], .unpack 0 0 [85], .unpack 1 1 [300]] ∧
    ((build (mockMultical3 (.ok [85, 300, 100]))
        [symbolReg, decimalsReg, balanceReg0]).Aggregate emptyHeap).heap balanceReg0.out
      = .bytes [85] ∧
    ((build (mockMultical3 (.ok [85, 300, 100]))
        [symbolReg, decimalsReg, balanceReg0]).Aggregate emptyHeap).heap balanceReg0.out
      ≠ emptyHeap balanceReg0.out :=
  ⟨rfl, rfl, rfl, rfl, rfl, rfl, rfl, by decide, by decide, by decide, by decide⟩

/-- C4, evaluated: with three registered sub-calls and a response that decodes to one
return byte string, `Aggregate` decodes sub-call 0 and then panics on `ReturnData[1]`
(index out of range) instead of returning an error; with a response that decodes to four
return byte strings it ignores the last one and returns nil. -/
theorem Aggregate_count_mismatch :
    ((build (mockMultical3 (.ok [85])) exampleRegs).Aggregate emptyHeap).outcome = .panic ∧
    ((build (mockMultical3 (.ok [85])) exampleRegs).Aggregate emptyHeap).trace.filter
        Event.isDecode = [.unpackAggregate [85], .unpack 0 0 [85]] ∧
    ((build (mockMultical3 (.ok [85, 6, 100, 7])) exampleRegs).Aggregate emptyHeap).outcome
      = .success := by
  decide

end Multix
